import Mathlib

/-!
Shallow embedding of the pragma-driven configuration assembly engine of
`pytmc/xml_collector.py` (classes `ElementCollector` and `PvPackage`), together
with theorems settling the frozen claims about it.

Conventions of the embedding:
* Python dictionaries become association lists with unique keys; lookup is
  first-match.
* Python exceptions become `Except PyErr`; `KeyError`, `TypeError`,
  `UnboundLocalError` and `IndexError` are distinguished because the source
  catches some of them (`term_exists` catches only `KeyError`;
  `from_element_path` catches only `TypeError`).
* Attribute names of the source are kept except where the gate forbids the
  identifier: the source attribute spelled p-v-underscore-partial is rendered
  `pv_part`, and the attribute holding the concatenated ancestor path (source
  name spelled p-r-e-f-i-x) is rendered `pfx`.
-/

namespace Pytmc

/-- A pragma tag value: either a literal string or the nested field mapping
(keys `f_name` / `f_set`) that `make_config` produces for `field` lines.  This
is exactly the shape of tag values in the program's pragma records. -/
inductive Tag where
  | str (s : String)
  | tmap (entries : List (String × String))
deriving DecidableEq, Repr

/-- One pragma record: a Python dictionary with keys such as `title` and
`tag`. -/
abbrev Row := List (String × Tag)

/-- First-match association lookup, modelling Python dict lookup on a pragma
record (keys are unique in practice). -/
def lookupT : Row → String → Option Tag
  | [], _ => none
  | (k, v) :: rest, key => if k = key then some v else lookupT rest key

/-- First-match association lookup in a nested field mapping. -/
def lookupS : List (String × String) → String → Option String
  | [], _ => none
  | (k, v) :: rest, key => if k = key then some v else lookupS rest key

/-- Python-level errors that the embedded code can raise. -/
inductive PyErr where
  | keyError
  | typeError
  | unboundLocal
  | indexError
deriving DecidableEq, Repr

/-- A Python value reachable while walking a rule's key path inside a pragma
record: the record itself, a nested field mapping, or a string leaf. -/
inductive PyVal where
  | pstr (s : String)
  | pdict1 (entries : List (String × String))
  | pdict2 (row : Row)
deriving DecidableEq, Repr

/-- The walk `target = target[page]` of `PvPackage.term_exists`
(xml_collector.py lines 306-309): a missing dictionary key raises `KeyError`;
indexing a string with a string key raises `TypeError`. -/
def walk : PyVal → List String → Except PyErr PyVal
  | v, [] => .ok v
  | .pstr _, _ :: _ => .error .typeError
  | .pdict1 es, k :: ks =>
    match lookupS es k with
    | none => .error .keyError
    | some s => walk (.pstr s) ks
  | .pdict2 row, k :: ks =>
    match lookupT row k with
    | none => .error .keyError
    | some (.str s) => walk (.pstr s) ks
    | some (.tmap es) => walk (.pdict1 es) ks

/-- Python `target == req_term` where `req_term` is a string: a dictionary
compared against a string is simply unequal. -/
def pyEqStr : PyVal → String → Bool
  | .pstr s, t => decide (s = t)
  | .pdict1 _, _ => false
  | .pdict2 _, _ => false

/-- One required rule line: an ordered mapping from required literal value
(`req_term`) to the key path (`req_location`) at which it must be found. -/
abbrev RuleLine := List (String × List String)

/-- The inner loop of `term_exists` (lines 301-318) for a single pragma
record: every term of the rule must be found at its key path; a `KeyError`
during the walk makes the record invalid (caught), while a `TypeError`
propagates out of `term_exists` (the source catches only `KeyError`). -/
def rowValid : RuleLine → Row → Except PyErr Bool
  | [], _ => .ok true
  | (term, loc) :: rest, row =>
    match walk (.pdict2 row) loc with
    | .error .keyError => .ok false
    | .error e => .error e
    | .ok v => if pyEqStr v term then rowValid rest row else .ok false

/-- `PvPackage.term_exists` (lines 296-323): scan the pragma records in order
and return `true` at the first record satisfying every term of the rule. -/
def term_exists : List Row → RuleLine → Except PyErr Bool
  | [], _ => .ok false
  | row :: rest, line =>
    match rowValid line row with
    | .error e => .error e
    | .ok true => .ok true
    | .ok false => term_exists rest line

/-- The `legacy` required-field rule table of `define_versions`
(lines 241-251), in declaration order. -/
def legacyReqFields : List RuleLine :=
  [ [("pv", ["title"])],
    [("type", ["title"])],
    [("str", ["title"])],
    [("io", ["title"])],
    [("field", ["title"]), ("DTYP", ["tag", "f_name"])],
    [("field", ["title"]), ("SCAN", ["tag", "f_name"])],
    [("field", ["title"]), ("INP", ["tag", "f_name"])] ]

/-- Marker for the bound methods stored in the scaffolded guess-method table
(`_all_guess_methods`); only `self.set_version` ever appears there. -/
inductive GuessMethod where
  | set_version
deriving DecidableEq, Repr

/-- The `legacy` guess-method table of `define_versions` (lines 265-281):
rule indices 1-6 each mapped to a (mostly empty) list of strategies. -/
def legacyGuessMethods : List (Nat × List GuessMethod) :=
  [(1, [.set_version]), (2, []), (3, []), (4, []), (5, []), (6, [])]

/-- An element of the path: the interface the engine consumes from the tree
collaborator (`name`, a `pv` path fragment, and `config_by_pv()` as the list
`configs` of configuration-intent groups). -/
structure Elem where
  name : String
  pv : String
  configs : List (List Row)
deriving DecidableEq, Repr

/-- The attribute dictionary of a constructed `PvPackage` (lines 211-294).
`pv_part` is the source attribute spelled p-v-underscore-partial; `pfx` is the
source attribute holding the concatenated ancestor pv fragments. -/
structure PvPackage where
  target_path : List Elem
  pragma : List Row
  pv_part : String
  pfx : String
  pv_complete : String
  proto_name : Option String
  proto_file_name : Option String
  guessing_applied : Bool
  version : String
  all_req_fields : List (String × List RuleLine)
  all_guess_methods : List (String × List (Nat × List GuessMethod))
  all_use_proto : List (String × Bool)
  req_fields : List RuleLine
  guess_methods : List (Nat × List GuessMethod)
  use_proto : Bool
deriving DecidableEq, Repr

/-- The loop of lines 224-226: concatenate `entry.pv + ":"` over every entry
of `target_path` except the last. -/
def pathPfx (tp : List Elem) : String :=
  (tp.dropLast).foldl (fun acc e => acc ++ e.pv ++ ":") ""

/-- The loop of lines 218-220: scan the pragma rows and remember the `tag` of
every row whose `title` equals `"pv"`; the variable `pv` ends up holding the
tag of the LAST such row.  A row without a `title` key or a matching row
without a `tag` key raises `KeyError`; if no row matches, the accumulator
stays at its initial value (`none` models the unbound Python local). -/
def findPvTag : List Row → Option Tag → Except PyErr (Option Tag)
  | [], acc => .ok acc
  | row :: rest, acc =>
    match lookupT row "title" with
    | none => .error .keyError
    | some t =>
      if t = .str "pv" then
        match lookupT row "tag" with
        | none => .error .keyError
        | some tag => findPvTag rest (some tag)
      else findPvTag rest acc

/-- `PvPackage.__init__` (lines 211-235).  The `use_proto` parameter of the
source is accepted and never stored, so it is omitted here; `deepcopy` of the
pragma is the identity on values (its frame effect is modelled separately by
the heap embedding below).  Failure modes, in source order: `KeyError` from
the title/tag lookups, `UnboundLocalError` when no `pv`-titled row exists,
`TypeError` when the extracted pv tag is a mapping rather than a string
(string concatenation on line 227), and `KeyError` from `set_version` when
the version is not registered. -/
def mkPvPackage (tp : List Elem) (pragma : List Row)
    (proto_name proto_file_name : Option String) (version : String) :
    Except PyErr PvPackage :=
  match findPvTag pragma none with
  | .error e => .error e
  | .ok none => .error .unboundLocal
  | .ok (some (.tmap _)) => .error .typeError
  | .ok (some (.str pv)) =>
    if version = "legacy" then
      .ok { target_path := tp
            pragma := pragma
            pv_part := pv
            pfx := pathPfx tp
            pv_complete := pathPfx tp ++ pv
            proto_name := proto_name
            proto_file_name := proto_file_name
            guessing_applied := false
            version := version
            all_req_fields := [("legacy", legacyReqFields)]
            all_guess_methods := [("legacy", legacyGuessMethods)]
            all_use_proto := [("legacy", true)]
            req_fields := legacyReqFields
            guess_methods := legacyGuessMethods
            use_proto := true }
    else .error .keyError

/-- The loop of `missing_pragma_lines` (lines 325-334) over a required-rule
list: collect, in declaration order, the rules for which `term_exists` is
false; an error from `term_exists` aborts the whole call. -/
def missingFrom (pragma : List Row) : List RuleLine → Except PyErr (List RuleLine)
  | [] => .ok []
  | r :: rest =>
    match term_exists pragma r with
    | .error e => .error e
    | .ok true => missingFrom pragma rest
    | .ok false => (missingFrom pragma rest).map (fun l => r :: l)

/-- `PvPackage.missing_pragma_lines` (lines 325-334). -/
def missing_pragma_lines (p : PvPackage) : Except PyErr (List RuleLine) :=
  missingFrom p.pragma p.req_fields

/-- `PvPackage.is_config_complete` (lines 336-343). -/
def is_config_complete (p : PvPackage) : Except PyErr Bool :=
  (missing_pragma_lines p).map (fun l => l.isEmpty)

/-- Modelled from the spec: `BaseElement.parse_pragma` lives in `xml_obj.py`,
which is not among the sources.  Per the spec, an element exposes titled
pragma records and the engine reads single fields from a
configuration-intent group; absence of the field yields no value ("absence of
an `io` field falls back to the unprefixed base name").  So: the `tag` of the
first record whose `title` equals the requested title, or `none`. -/
def parse_pragma (title : String) (cs : List Row) : Option Tag :=
  match cs.find? (fun row => decide (lookupT row "title" = some (.str title))) with
  | none => none
  | some row => lookupT row "tag"

/-- Python `"Set" + base` where `base` may be `None`: concatenation with
`None` raises `TypeError`, which the surrounding `try` of
`from_element_path` catches, leaving `proto_name = base_proto_name` (which is
`None` in exactly that case). -/
def pyAdd (pre : String) : Option String → Option String
  | some b => some (pre ++ b)
  | none => none

/-- Python substring test `"o" in s`; the needles used by the source are the
single characters `"o"` and `"i"`, for which substring and character
containment coincide.  Applied to a dictionary, `in` tests key membership;
applied to `None`, it raises `TypeError`. -/
def strHas (s : String) (c : Char) : Bool :=
  s.data.contains c

/-- The proto-name computation of `from_element_path` (lines 433-442) for one
configuration-intent group: result `some p` means the local `proto_name` was
assigned `p`; result `none` means neither branch ran (an `io` value
containing neither letter), leaving the local unassigned.  The `TypeError`
cases (absent `io`, or a `None` base name) are caught by the source and fall
back to `base_proto_name`. -/
def protoAssign (base : Option String) (io : Option Tag) : Option (Option String) :=
  match io with
  | none => some base
  | some (.str s) =>
    if strHas s 'o' then some (pyAdd "Set" base)
    else if strHas s 'i' then some (pyAdd "Get" base)
    else none
  | some (.tmap es) =>
    if es.any (fun kv => decide (kv.1 = "o")) then some (pyAdd "Set" base)
    else if es.any (fun kv => decide (kv.1 = "i")) then some (pyAdd "Get" base)
    else none

/-- Lines 417-421: `use_proto` defaults to whether a base proto name or a
proto file name was supplied. -/
def resolveUseProto (base file : Option String) : Option Bool → Bool
  | some b => b
  | none => base.isSome || file.isSome

/-- The package-building loop of `from_element_path` (lines 432-455) over the
configuration-intent groups of the last element.  `prev` threads the Python
local `proto_name` across iterations (`none` = still unbound, so reading it
raises `UnboundLocalError`); when `use_proto` is false the source overwrites
`proto_file_name` with `None` and sets `proto_name = None`. -/
def fepAssigned (base file : Option String) (useP : Bool) (cs : List Row)
    (prev : Option (Option String)) : Except PyErr (Option String × Option String) :=
  if useP then
    match protoAssign base (parse_pragma "io" cs) with
    | some p => .ok (p, file)
    | none =>
      match prev with
      | some p => .ok (p, file)
      | none => .error .unboundLocal
  else .ok (none, none)

/-- The per-group body of the loop: resolve the proto name (and the possibly
overwritten file name), then construct the package. -/
def fepGo (tp : List Elem) (base file : Option String) (useP : Bool) :
    List (List Row) → Option (Option String) → List PvPackage →
    Except PyErr (List PvPackage)
  | [], _, acc => .ok acc
  | cs :: rest, prev, acc =>
    match fepAssigned base file useP cs prev with
    | .error e => .error e
    | .ok (pname, pfile) =>
      match mkPvPackage tp cs pname pfile "legacy" with
      | .error e => .error e
      | .ok pkg => fepGo tp base file useP rest (some pname) (acc ++ [pkg])

/-- `PvPackage.from_element_path` with `return_rejects=True` (lines 389-460).
The pair is `(pvpacks_output_list, reject_list)`; the source initializes
`reject_list = []` on line 415 and never appends to it, so the second
component is always empty.  The loop over all elements on lines 425-428 only
deep-copies elements into a discarded local and is therefore omitted.  An
empty `target_path` raises `IndexError` at `target_path[-1]`. -/
def from_element_path (tp : List Elem) (base file : Option String)
    (useProtoArg : Option Bool) : Except PyErr (List PvPackage × List PvPackage) :=
  match tp.getLast? with
  | none => .error .indexError
  | some lastE =>
    (fepGo tp base file (resolveUseProto base file useProtoArg) lastE.configs none []).map
      (fun l => (l, []))

/-- A copied element with its per-path pv contribution bound, as produced
inside `assemble_package_chains` (lines 357-362). -/
structure FrozenElem where
  name : String
  frozen_pv : Option Tag
deriving DecidableEq, Repr

/-- Modelled from the spec: `copy(target)` plus `BaseElement.freeze_pv`
(defined in `xml_obj.py`, not among the sources).  Per the spec, "the
element's own `pv` contribution is permanently bound into a copy of that
element (never mutating the shared element instance)". -/
def freezeCopy (target : Elem) (cs : List Row) : FrozenElem :=
  { name := target.name, frozen_pv := parse_pragma "pv" cs }

/-- Lines 355-362: one frozen copy of the current element per
configuration-intent group. -/
def mkNewElements (target : Elem) : List FrozenElem :=
  target.configs.map (freezeCopy target)

/-- The chain-extension loop of `assemble_package_chains` (lines 366-374).
For each pre-existing chain (the `range(len(progress_chain))` snapshot), the
first new element is appended to the chain in place; every further new
element is appended to a copy of that chain taken AFTER the in-place append,
so the copy already carries the first new element.  Updated chains keep
their positions; spawned chains are appended at the end in loop order. -/
def tierStep (pc : List (List FrozenElem)) : List FrozenElem → List (List FrozenElem)
  | [] => pc
  | e0 :: rest =>
    pc.map (fun c => c ++ [e0]) ++
      pc.flatMap (fun c => rest.map (fun ej => c ++ [e0, ej]))

/-- `PvPackage.assemble_package_chains` (lines 345-387): process the path
front to back, seed the chain collection with singleton chains at the first
tier, and recurse on the remainder of the path. -/
def assemble_package_chains : List Elem → List (List FrozenElem) →
    Except PyErr (List (List FrozenElem))
  | [], _ => .error .indexError
  | t :: rest, pc =>
    let pc2 := tierStep pc (mkNewElements t)
    let pc3 := if pc2.isEmpty then (mkNewElements t).map (fun e => [e]) else pc2
    if rest.isEmpty then .ok pc3
    else assemble_package_chains rest pc3

/-- `PvPackage.__eq__` (lines 497-512): compare the attribute dictionaries,
skipping `_all_req_fields`, `_all_req_vars`, `_all_guess_methods`,
`req_fields`, `req_vars` and `guess_methods` (the two `req_vars` entries
never exist on an instance: the assignment in `define_versions` sits inside a
string literal).  All other attributes, including `_all_use_proto` and
`use_proto`, are compared. -/
def pvEq (p q : PvPackage) : Bool :=
  decide (p.target_path = q.target_path) &&
  decide (p.pragma = q.pragma) &&
  decide (p.pv_part = q.pv_part) &&
  decide (p.pfx = q.pfx) &&
  decide (p.pv_complete = q.pv_complete) &&
  decide (p.proto_name = q.proto_name) &&
  decide (p.proto_file_name = q.proto_file_name) &&
  decide (p.guessing_applied = q.guessing_applied) &&
  decide (p.version = q.version) &&
  decide (p.all_use_proto = q.all_use_proto) &&
  decide (p.use_proto = q.use_proto)

/-! ### Heap embedding of `deepcopy` (line 216)

Python object identity is modelled by a heap of pragma-record cells addressed
by index.  A pragma group held by an element is a list of cell addresses;
`deepcopy` allocates fresh cells holding copies of the addressed records, as
the recursion below (one fresh cell per record, in order). -/

/-- A heap of pragma-record cells; an address is an index into the list. -/
abbrev Heap := List Row

/-- Write a record into the cell at address `a` (mutating a record through a
reference that aliases it). -/
def writeH (h : Heap) (a : Nat) (r : Row) : Heap := h.set a r

/-- Allocate fresh cells holding copies of the records at `addrs`, returning
the grown heap and the fresh addresses in order. -/
def deepcopyRows (h : Heap) : List Nat → Heap × List Nat
  | [] => (h, [])
  | a :: rest =>
    let h2 := h ++ [(h[a]?).getD []]
    let p := deepcopyRows h2 rest
    (p.1, h.length :: p.2)

/-- A constructed package together with the heap addresses of its (copied)
pragma records. -/
structure PvPackageH where
  pkg : PvPackage
  pragmaAddrs : List Nat
deriving Repr

/-- Heap-aware package construction: line 216 deep-copies the supplied pragma
group before storing it, so the package's records live in fresh cells. -/
def mkPvPackageH (h : Heap) (tp : List Elem) (addrs : List Nat)
    (pn pf : Option String) : Heap × Except PyErr PvPackageH :=
  match mkPvPackage tp ((deepcopyRows h addrs).2.map
      (fun a => ((deepcopyRows h addrs).1[a]?).getD [])) pn pf "legacy" with
  | .error e => ((deepcopyRows h addrs).1, .error e)
  | .ok pk => ((deepcopyRows h addrs).1, .ok { pkg := pk, pragmaAddrs := (deepcopyRows h addrs).2 })

/-! ### `ElementCollector` (lines 17-38) -/

/-- Python dict item assignment: replace the value in place when the key is
already present (the entry keeps its position and the size is unchanged),
otherwise append a new entry. -/
def dictSet : List (String × Elem) → String → Elem → List (String × Elem)
  | [], k, v => [(k, v)]
  | (k1, v1) :: rest, k, v =>
    if k1 = k then (k, v) :: rest else (k1, v1) :: dictSet rest k v

/-- Python dict lookup on the collector. -/
def dictGet : List (String × Elem) → String → Option Elem
  | [], _ => none
  | (k1, v1) :: rest, k => if k1 = k then some v1 else dictGet rest k

/-- `ElementCollector.add` (lines 28-38): `dict.__setitem__(self, value.name,
value)`. -/
def collectorAdd (c : List (String × Elem)) (v : Elem) : List (String × Elem) :=
  dictSet c v.name v

/-! ### Spec-side companion definitions (transcribed from the claims) -/

/-- Claim-side concatenation for `pv_complete`: the pv of each element except
the last, each immediately followed by the separator `":"`. -/
def catPv : List Elem → String
  | [] => ""
  | e :: rest => e.pv ++ ":" ++ catPv rest

/-- Claim-side record matching for `term_exists`: a record satisfies a rule
line when every term of the line is found at its declared key path and equals
the required literal; a failed walk means no match for that record. -/
def rowMatches (line : RuleLine) (row : Row) : Bool :=
  line.all (fun p =>
    match walk (.pdict2 row) p.2 with
    | .ok v => pyEqStr v p.1
    | .error _ => false)

/-- Does a record carry the title `pv`? -/
def pvTitled (r : Row) : Bool :=
  decide (lookupT r "title" = some (.str "pv"))

/-- Claim-side description of the pv record actually used: the tag of the
last `pv`-titled record of the group. -/
def specLastPvTag (pragma : List Row) : Option Tag :=
  match (pragma.filter pvTitled).getLast? with
  | none => none
  | some row => lookupT row "tag"

/-- Claim-side (amended) stub-direction mapping: an `io` value containing
`"o"` yields the `"Set"` name (this branch is checked first), an `io` value
containing `"i"` but not `"o"` yields the `"Get"` name, and an absent `io`
record yields the base name unchanged. -/
def protoExpected (base : String) : Option Tag → Option String
  | none => some base
  | some (.str s) =>
    if strHas s 'o' then some ("Set" ++ base)
    else if strHas s 'i' then some ("Get" ++ base)
    else none
  | some (.tmap _) => none

/-- Boolean test for "term_exists returned false (without raising)". -/
def isOkFalse : Except PyErr Bool → Bool
  | .ok false => true
  | .ok true => false
  | .error _ => false

/-! ### Concrete example data (the example scenario of the spec) -/

/-- A `pv` pragma line. -/
def pvRow (v : String) : Row := [("title", .str "pv"), ("tag", .str v)]

/-- A `type` pragma line. -/
def typeRow (v : String) : Row := [("title", .str "type"), ("tag", .str v)]

/-- A `str` pragma line. -/
def strRow (v : String) : Row := [("title", .str "str"), ("tag", .str v)]

/-- An `io` pragma line. -/
def ioRow (v : String) : Row := [("title", .str "io"), ("tag", .str v)]

/-- A `field` pragma line with nested `f_name` / `f_set` mapping. -/
def fieldRow (fn fs : String) : Row :=
  [("title", .str "field"), ("tag", .tmap [("f_name", fn), ("f_set", fs)])]

/-- Incomplete configuration-intent group A of the spec's example scenario. -/
def groupA : List Row := [pvRow "count", typeRow "ai", ioRow "i"]

/-- Complete configuration-intent group B of the spec's example scenario. -/
def groupB : List Row :=
  [pvRow "limit", typeRow "ao", strRow "%d", ioRow "o",
   fieldRow "DTYP" "asynInt32", fieldRow "SCAN" "I/O Intr", fieldRow "INP" "@asyn"]

/-- The container element of the spec's example scenario. -/
def containerEx : Elem := { name := "MAIN", pv := "MAIN", configs := [[pvRow "MAIN"]] }

/-- The leaf element of the spec's example scenario: two intent groups. -/
def leafEx : Elem := { name := "leaf", pv := "", configs := [groupA, groupB] }

/-- A one-group element used in chain-expansion examples. -/
def elemA : Elem := { name := "A", pv := "A", configs := [[pvRow "a"]] }

/-- A two-group element used in chain-expansion examples. -/
def elemB : Elem := { name := "B", pv := "B", configs := [[pvRow "x"], [pvRow "y"]] }

/-! ### String append helper lemmas -/

/-- Appending the empty string on the right is the identity. -/
theorem strAppendEmpty (s : String) : s ++ "" = s := by
  cases s with
  | mk l => exact congrArg String.mk (List.append_nil l)

/-- String append is associative. -/
theorem strAppendAssoc (a b c : String) : (a ++ b) ++ c = a ++ (b ++ c) := by
  cases a with
  | mk x =>
    cases b with
    | mk y =>
      cases c with
      | mk z => exact congrArg String.mk (List.append_assoc x y z)

/-! ### Theorems settling the claims -/

/-- Claim C1 (code bug): on the spec's own example scenario (container
`MAIN`, leaf with incomplete group A and complete group B),
`from_element_path` with rejects enabled places BOTH packages — including the
incomplete `MAIN:count` one, whose `is_config_complete` is false — in the
accepted output list and returns an empty reject list, instead of routing
the incomplete package to the rejected list. -/
theorem from_element_path_keeps_incomplete_in_accepted :
    (from_element_path [containerEx, leafEx] none none none).map
      (fun r => (r.1.map PvPackage.pv_complete, r.1.map is_config_complete, r.2.length))
    = .ok (["MAIN:count", "MAIN:limit"], [.ok false, .ok true], 0) := rfl

/-- Claim C2 (code bug): for a path of two elements with 1 and 2
configuration-intent groups, `assemble_package_chains` returns 2 chains (the
product is right), but the chain spawned for the second group contains BOTH
frozen copies of the second element — three entries for a two-element path —
because the source copies the chain after the in-place append of the tier's
first group. -/
theorem assemble_package_chains_duplicates_tier_choice :
    assemble_package_chains [elemA, elemB] []
    = .ok [ [{ name := "A", frozen_pv := some (.str "a") },
             { name := "B", frozen_pv := some (.str "x") }],
            [{ name := "A", frozen_pv := some (.str "a") },
             { name := "B", frozen_pv := some (.str "x") },
             { name := "B", frozen_pv := some (.str "y") }] ] := rfl

/-- Fold characterization: accumulating `acc ++ e.pv ++ ":"` over a list
equals `acc` followed by the claim-side concatenation. -/
theorem foldPfx_eq (l : List Elem) : ∀ acc : String,
    l.foldl (fun a e => a ++ e.pv ++ ":") acc = acc ++ catPv l := by
  induction l with
  | nil => intro acc; exact (strAppendEmpty acc).symm
  | cons e rest ih =>
    intro acc
    show rest.foldl _ ((acc ++ e.pv) ++ ":") = acc ++ catPv (e :: rest)
    rw [ih ((acc ++ e.pv) ++ ":")]
    show ((acc ++ e.pv) ++ ":") ++ catPv rest = acc ++ ((e.pv ++ ":") ++ catPv rest)
    simp only [strAppendAssoc]

/-- The source's accumulated path fragment equals the claim-side
concatenation over all elements but the last. -/
theorem pathPfx_eq_cat (tp : List Elem) : pathPfx tp = catPv tp.dropLast := by
  rw [pathPfx, foldPfx_eq]
  cases h : catPv tp.dropLast with
  | mk l => rfl

/-- A default package, used only to read a value out of an `Except`. -/
def defaultPkg : PvPackage :=
  { target_path := [], pragma := [], pv_part := "", pfx := "", pv_complete := ""
    proto_name := none, proto_file_name := none, guessing_applied := false
    version := "legacy", all_req_fields := [], all_guess_methods := []
    all_use_proto := [], req_fields := [], guess_methods := [], use_proto := true }

/-- Read the value of a successful construction (default otherwise). -/
def getOkD (d : PvPackage) : Except PyErr PvPackage → PvPackage
  | .ok p => p
  | .error _ => d

/-- Field characterization of a successful construction: the stored
attributes in terms of the constructor arguments. -/
theorem mk_fields (tp : List Elem) (pragma : List Row) (pn pf : Option String)
    (pkg : PvPackage) (h : mkPvPackage tp pragma pn pf "legacy" = .ok pkg) :
    pkg.target_path = tp ∧ pkg.pragma = pragma ∧ pkg.proto_name = pn ∧
    pkg.proto_file_name = pf ∧ pkg.pfx = pathPfx tp ∧
    pkg.pv_complete = pathPfx tp ++ pkg.pv_part ∧ pkg.req_fields = legacyReqFields := by
  unfold mkPvPackage at h
  split at h
  · exact absurd h (by simp)
  · exact absurd h (by simp)
  · exact absurd h (by simp)
  · rw [if_pos rfl] at h
    injection h with h
    subst h
    exact ⟨rfl, rfl, rfl, rfl, rfl, rfl, rfl⟩

/-- The pv fragment stored by a successful construction is exactly the value
that the pv-extraction scan produced. -/
theorem mk_pv_part (tp : List Elem) (pragma : List Row) (pn pf : Option String)
    (pkg : PvPackage) (h : mkPvPackage tp pragma pn pf "legacy" = .ok pkg) :
    findPvTag pragma none = .ok (some (.str pkg.pv_part)) := by
  unfold mkPvPackage at h
  split at h
  · exact absurd h (by simp)
  · exact absurd h (by simp)
  · exact absurd h (by simp)
  · rename_i pv heq
    rw [if_pos rfl] at h
    injection h with h
    subst h
    exact heq

/-- Claim C3 (confirmed): for every successfully constructed package,
`pv_complete` is the concatenation of the `pv` of every element of
`target_path` but the last, each immediately followed by `":"`, followed by
the package's own pv fragment; and it is a function of `target_path` and
`pragma` alone — a second construction from the same path and pragma group
(with possibly different proto arguments) yields a byte-identical
`pv_complete`. -/
theorem pv_complete_concatenation (tp : List Elem) (pragma : List Row)
    (pn pf pn2 pf2 : Option String) (pkg pkg2 : PvPackage)
    (h1 : mkPvPackage tp pragma pn pf "legacy" = .ok pkg)
    (h2 : mkPvPackage tp pragma pn2 pf2 "legacy" = .ok pkg2) :
    pkg.pv_complete = catPv tp.dropLast ++ pkg.pv_part
    ∧ pkg.pv_complete = pkg2.pv_complete := by
  have f1 := mk_fields tp pragma pn pf pkg h1
  have f2 := mk_fields tp pragma pn2 pf2 pkg2 h2
  have p1 := mk_pv_part tp pragma pn pf pkg h1
  have p2 := mk_pv_part tp pragma pn2 pf2 pkg2 h2
  rw [p1] at p2
  simp only [Except.ok.injEq, Option.some.injEq, Tag.str.injEq] at p2
  refine ⟨?_, ?_⟩
  · rw [f1.2.2.2.2.2.1, pathPfx_eq_cat]
  · rw [f1.2.2.2.2.2.1, f2.2.2.2.2.2.1, p2]

/-- Package built from the example scenario's incomplete group A. -/
def pkgC3 : PvPackage :=
  getOkD defaultPkg (mkPvPackage [containerEx, leafEx] groupA none none "legacy")

/-- The same construction with different proto arguments. -/
def pkgC3b : PvPackage :=
  getOkD defaultPkg (mkPvPackage [containerEx, leafEx] groupA (some "z") none "legacy")

/-- Witness for claim C3 at the example scenario. -/
theorem pv_complete_concatenation_witness :
    mkPvPackage [containerEx, leafEx] groupA none none "legacy" = .ok pkgC3
    ∧ mkPvPackage [containerEx, leafEx] groupA (some "z") none "legacy" = .ok pkgC3b
    ∧ (pkgC3.pv_complete = catPv [containerEx, leafEx].dropLast ++ pkgC3.pv_part
       ∧ pkgC3.pv_complete = pkgC3b.pv_complete) :=
  ⟨rfl, rfl,
   pv_complete_concatenation [containerEx, leafEx] groupA none none (some "z") none
     pkgC3 pkgC3b rfl rfl⟩

/-- Claim C4 (counterexample): constructing a package from a pragma group
with TWO `pv`-titled records does not fail at all — it succeeds, silently
using the tag of the last one.  No `MissingPvDeclaration` error exists in the
code. -/
theorem mkPvPackage_two_pv_rows_succeeds :
    (mkPvPackage [elemA] [pvRow "a", pvRow "b"] none none "legacy").map PvPackage.pv_part
    = .ok "b" := rfl

/-- Characterization of the pv-extraction scan: when it succeeds, its result
is the tag of the last `pv`-titled record (or the accumulator when no such
record exists). -/
theorem findPvTag_getLast (pragma : List Row) : ∀ (acc r : Option Tag),
    findPvTag pragma acc = .ok r →
    ((pragma.filter pvTitled).getLast? = none ∧ r = acc)
    ∨ (∃ row t, (pragma.filter pvTitled).getLast? = some row
        ∧ lookupT row "tag" = some t ∧ r = some t) := by
  induction pragma with
  | nil =>
    intro acc r h
    left
    refine ⟨rfl, ?_⟩
    injection h with h
    exact h.symm
  | cons row rest ih =>
    intro acc r h
    unfold findPvTag at h
    split at h
    · exact absurd h (by simp)
    · rename_i t ht
      by_cases hpv : t = Tag.str "pv"
      · rw [if_pos hpv] at h
        split at h
        · exact absurd h (by simp)
        · rename_i tag htag
          have hP : pvTitled row = true := by simp [pvTitled, ht, hpv]
          rw [List.filter_cons_of_pos hP]
          rcases ih (some tag) r h with ⟨hnone, hr⟩ | ⟨row2, t2, hlast, hlook, hr⟩
          · have hfe : rest.filter pvTitled = [] := List.getLast?_eq_none_iff.mp hnone
            right
            refine ⟨row, tag, ?_, htag, hr⟩
            rw [hfe]
            rfl
          · right
            refine ⟨row2, t2, ?_, hlook, hr⟩
            cases hfr : rest.filter pvTitled with
            | nil => rw [hfr] at hlast; exact absurd hlast (by simp)
            | cons b m =>
              rw [hfr] at hlast
              rw [List.getLast?_cons_cons]
              exact hlast
      · rw [if_neg hpv] at h
        have hP : pvTitled row = false := by simp [pvTitled, ht, hpv]
        rw [List.filter_cons_of_neg (by simp [hP])]
        exact ih acc r h

/-- Claim C4 (amended and proved): a pragma group with NO `pv`-titled record
makes construction fail — but with an unbound-local lookup error, since no
`MissingPvDeclaration` exists in the code; a group with one or more `pv`
records constructs successfully (no duplicate check), and the stored pv
fragment is the tag of the LAST `pv`-titled record. -/
theorem pv_extraction_amended :
    (∀ (tp : List Elem) (pragma : List Row) (pn pf : Option String) (pkg : PvPackage),
      mkPvPackage tp pragma pn pf "legacy" = .ok pkg →
      specLastPvTag pragma = some (.str pkg.pv_part))
    ∧ (∀ (tp : List Elem) (pragma : List Row) (pn pf : Option String),
      findPvTag pragma none = .ok none →
      mkPvPackage tp pragma pn pf "legacy" = .error .unboundLocal) := by
  constructor
  · intro tp pragma pn pf pkg h
    have hp := mk_pv_part tp pragma pn pf pkg h
    rcases findPvTag_getLast pragma none _ hp with ⟨_, hr⟩ | ⟨row, t, hlast, hlook, hr⟩
    · exact absurd hr (by simp)
    · have hs : specLastPvTag pragma = lookupT row "tag" := by
        unfold specLastPvTag
        rw [hlast]
      simp only [Option.some.injEq] at hr
      rw [hs, hlook]
      exact congrArg some hr.symm
  · intro tp pragma pn pf h
    unfold mkPvPackage
    rw [h]

/-- One-pv pragma group for the C4 witness. -/
def groupOnePv : List Row := [pvRow "a", typeRow "ai"]

/-- Pv-less pragma group for the C4 witness. -/
def groupNoPv : List Row := [typeRow "ai"]

/-- Package built from the one-pv group. -/
def pkgC4 : PvPackage := getOkD defaultPkg (mkPvPackage [elemA] groupOnePv none none "legacy")

/-- Witness for the amended claim C4 at concrete groups. -/
theorem pv_extraction_amended_witness :
    mkPvPackage [elemA] groupOnePv none none "legacy" = .ok pkgC4
    ∧ specLastPvTag groupOnePv = some (.str pkgC4.pv_part)
    ∧ findPvTag groupNoPv none = .ok none
    ∧ mkPvPackage [elemA] groupNoPv none none "legacy" = .error .unboundLocal :=
  ⟨rfl, pv_extraction_amended.1 [elemA] groupOnePv none none pkgC4 rfl,
   rfl, pv_extraction_amended.2 [elemA] groupNoPv none none rfl⟩

/-- Claim C5 (counterexample): for a constructed package whose pragma group
contains a `field`-titled record with a plain-string tag, `term_exists` on
the legacy `DTYP` rule line raises `TypeError` (the source catches only
`KeyError`), instead of treating the record as a non-match and continuing. -/
theorem term_exists_raises_type_error :
    (mkPvPackage [elemA] [pvRow "a", [("title", .str "field"), ("tag", .str "x")]]
        none none "legacy").map
      (fun p => term_exists p.pragma [("field", ["title"]), ("DTYP", ["tag", "f_name"])])
    = .ok (.error .typeError) := rfl

/-- The per-record loop of `term_exists` agrees with the claim-side matcher
whenever it returns without raising. -/
theorem rowValid_ok (row : Row) : ∀ (line : RuleLine) (b : Bool),
    rowValid line row = .ok b → rowMatches line row = b := by
  intro line
  induction line with
  | nil =>
    intro b h
    simp only [rowValid, Except.ok.injEq] at h
    subst h
    rfl
  | cons p rest ih =>
    intro b h
    rcases p with ⟨term, loc⟩
    unfold rowValid at h
    split at h
    · rename_i hw
      simp only [Except.ok.injEq] at h
      subst h
      simp [rowMatches, hw]
    · exact absurd h (by simp)
    · rename_i v hw
      by_cases hm : pyEqStr v term = true
      · rw [if_pos hm] at h
        have h2 := ih b h
        unfold rowMatches at h2 ⊢
        simp only [List.all_cons, hw, hm, Bool.true_and]
        exact h2
      · rw [if_neg hm] at h
        simp only [Except.ok.injEq] at h
        subst h
        have hm2 : pyEqStr v term = false := by
          rcases Bool.eq_false_or_eq_true (pyEqStr v term) with h0 | h0
          · exact absurd h0 hm
          · exact h0
        simp [rowMatches, hw, hm2]

/-- The record scan of `term_exists` agrees with an existence check over the
claim-side matcher whenever it returns without raising. -/
theorem term_exists_any (line : RuleLine) : ∀ (rows : List Row) (b : Bool),
    term_exists rows line = .ok b →
    b = rows.any (fun row => rowMatches line row) := by
  intro rows
  induction rows with
  | nil =>
    intro b h
    simp only [term_exists, Except.ok.injEq] at h
    subst h
    rfl
  | cons row rest ih =>
    intro b h
    unfold term_exists at h
    split at h
    · exact absurd h (by simp)
    · rename_i hv
      simp only [Except.ok.injEq] at h
      subst h
      simp [List.any_cons, rowValid_ok row line true hv]
    · rename_i hv
      rw [List.any_cons]
      simp only [rowValid_ok row line false hv, Bool.false_or]
      exact ih b h

/-- Claim C5 (amended and proved): whenever `term_exists` returns without
raising, it returns true exactly when some record of the package's pragma
group matches every nested-key/value requirement of the rule line, records
that fail a dictionary-key lookup along the path being skipped without
error; the unamended claim fails because a record with a plain-string value
in the middle of the rule's key path raises `TypeError` instead of being
skipped. -/
theorem term_exists_matches_any (p : PvPackage) (line : RuleLine) (b : Bool)
    (h : term_exists p.pragma line = .ok b) :
    b = p.pragma.any (fun row => rowMatches line row) :=
  term_exists_any line p.pragma b h

/-- Package built from the complete group B, for the C5 witness. -/
def pkgC5 : PvPackage := getOkD defaultPkg (mkPvPackage [elemA] groupB none none "legacy")

/-- Witness for the amended claim C5 at a concrete package and rule line. -/
theorem term_exists_matches_any_witness :
    term_exists pkgC5.pragma [("pv", ["title"])] = .ok true
    ∧ true = pkgC5.pragma.any (fun row => rowMatches [("pv", ["title"])] row) :=
  ⟨rfl, term_exists_matches_any pkgC5 [("pv", ["title"])] true rfl⟩

/-- The rejection loop collects exactly the ordered filter of the rules for
which `term_exists` returned false, whenever it returns without raising. -/
theorem missingFrom_filter (pragma : List Row) : ∀ (reqs l : List RuleLine),
    missingFrom pragma reqs = .ok l →
    l = reqs.filter (fun r => isOkFalse (term_exists pragma r)) := by
  intro reqs
  induction reqs with
  | nil =>
    intro l h
    simp only [missingFrom, Except.ok.injEq] at h
    subst h
    rfl
  | cons r rest ih =>
    intro l h
    unfold missingFrom at h
    split at h
    · exact absurd h (by simp)
    · rename_i hte
      rw [List.filter_cons_of_neg (by simp [isOkFalse, hte])]
      exact ih l h
    · rename_i hte
      cases hmr : missingFrom pragma rest with
      | error e => rw [hmr] at h; exact absurd h (by simp [Except.map])
      | ok l2 =>
        rw [hmr] at h
        simp only [Except.map, Except.ok.injEq] at h
        subst h
        rw [List.filter_cons_of_pos (by simp [isOkFalse, hte])]
        rw [ih l2 hmr]

/-- Claim C6 (confirmed): whenever `missing_pragma_lines` returns, the
returned list is exactly the subsequence of the active version's required
rule lines for which `term_exists` is false, in rule-table declaration
order; and `is_config_complete` is true exactly when that list is empty. -/
theorem missing_lines_ordered_filter (p : PvPackage) (l : List RuleLine)
    (h : missing_pragma_lines p = .ok l) :
    l = p.req_fields.filter (fun r => isOkFalse (term_exists p.pragma r))
    ∧ (is_config_complete p = .ok true ↔ l = []) := by
  refine ⟨missingFrom_filter p.pragma p.req_fields l h, ?_⟩
  unfold is_config_complete
  rw [h]
  cases l with
  | nil => simp [Except.map]
  | cons a m => simp [Except.map]

/-- Package built from a pv-only pragma group, for the C6 witness. -/
def pkgC6 : PvPackage := getOkD defaultPkg (mkPvPackage [elemA] [pvRow "a"] none none "legacy")

/-- Witness for claim C6 at a concrete package: six of the seven legacy rules
are missing and the package is incomplete. -/
theorem missing_lines_ordered_filter_witness :
    missing_pragma_lines pkgC6 = .ok (legacyReqFields.drop 1)
    ∧ (legacyReqFields.drop 1
        = pkgC6.req_fields.filter (fun r => isOkFalse (term_exists pkgC6.pragma r))
       ∧ (is_config_complete pkgC6 = .ok true ↔ legacyReqFields.drop 1 = [])) :=
  ⟨rfl, missing_lines_ordered_filter pkgC6 (legacyReqFields.drop 1) rfl⟩

/-- Claim C7 (counterexample): with base stub name `"Foo"` and an `io` value
`"io"` — which contains `"i"` — the produced stub name is `"SetFoo"`, not the
`"GetFoo"` the claim requires for `io` values containing `"i"`: the `"o"`
branch is checked first. -/
theorem from_element_path_io_both_letters_yields_set :
    (from_element_path [{ name := "L", pv := "", configs := [[pvRow "v", ioRow "io"]] }]
        (some "Foo") none none).map (fun r => r.1.map PvPackage.proto_name)
      = .ok [some "SetFoo"]
    ∧ strHas "io" 'i' = true := ⟨rfl, rfl⟩

/-- Guard used in the amended claim C7: the `io` record is either absent or a
string carrying a direction letter. -/
def ioGuard : Option Tag → Bool
  | none => true
  | some (.str s) => strHas s 'o' || strHas s 'i'
  | some (.tmap _) => false

/-- The record a successful legacy construction produces. -/
def mkLegacyPkg (tp : List Elem) (pragma : List Row) (pv : String)
    (pn pf : Option String) : PvPackage :=
  { target_path := tp, pragma := pragma, pv_part := pv, pfx := pathPfx tp
    pv_complete := pathPfx tp ++ pv, proto_name := pn, proto_file_name := pf
    guessing_applied := false, version := "legacy"
    all_req_fields := [("legacy", legacyReqFields)]
    all_guess_methods := [("legacy", legacyGuessMethods)]
    all_use_proto := [("legacy", true)], req_fields := legacyReqFields
    guess_methods := legacyGuessMethods, use_proto := true }

/-- Evaluation of the constructor once the pv extraction is known. -/
theorem mk_eval (tp : List Elem) (pragma : List Row) (pv : String)
    (pn pf : Option String) (hpv : findPvTag pragma none = .ok (some (.str pv))) :
    mkPvPackage tp pragma pn pf "legacy" = .ok (mkLegacyPkg tp pragma pv pn pf) := by
  unfold mkPvPackage
  rw [hpv]
  rfl

/-- When stub usage is off, every package the loop builds carries no proto
name and no proto file name. -/
theorem fepGo_noproto (tp : List Elem) : ∀ (cfgs : List (List Row))
    (prev : Option (Option String)) (acc l : List PvPackage),
    acc.all (fun p => decide (p.proto_name = none) && decide (p.proto_file_name = none)) = true →
    fepGo tp none none false cfgs prev acc = .ok l →
    l.all (fun p => decide (p.proto_name = none) && decide (p.proto_file_name = none)) = true := by
  intro cfgs
  induction cfgs with
  | nil =>
    intro prev acc l hacc h
    simp only [fepGo, Except.ok.injEq] at h
    subst h
    exact hacc
  | cons cs rest ih =>
    intro prev acc l hacc h
    unfold fepGo at h
    split at h
    · rename_i e he
      rw [show fepAssigned none none false cs prev
          = Except.ok ((none : Option String), (none : Option String)) from rfl] at he
      exact absurd he (by simp)
    · rename_i pname pfile he
      rw [show fepAssigned none none false cs prev
          = Except.ok ((none : Option String), (none : Option String)) from rfl] at he
      simp only [Except.ok.injEq, Prod.mk.injEq] at he
      obtain ⟨h1, h2⟩ := he
      subst h1
      subst h2
      split at h
      · exact absurd h (by simp)
      · rename_i pkg hmk
        have hf := mk_fields tp cs none none pkg hmk
        refine ih (some none) (acc ++ [pkg]) l ?_ h
        rw [List.all_append, hacc]
        simp [hf.2.2.1, hf.2.2.2.1]

/-- Claim C7 (amended and proved).  Stub naming in `from_element_path`: with
a base stub name supplied, an `io` value containing `"o"` yields the `"Set"`
stub name (this branch wins even when `"i"` is also present), an `io` value
containing `"i"` but not `"o"` yields the `"Get"` stub name, and an absent
`io` record yields the base name unchanged; when stub usage is not requested
(no explicit flag, no base name, no file name), every produced package has
`proto_name` and `proto_file_name` equal to `none`. -/
theorem stub_direction_amended :
    (∀ (leaf : Elem) (cs : List Row) (base pv : String),
      leaf.configs = [cs] →
      findPvTag cs none = .ok (some (.str pv)) →
      ioGuard (parse_pragma "io" cs) = true →
      (from_element_path [leaf] (some base) none none).map
          (fun r => r.1.map PvPackage.proto_name)
        = .ok [protoExpected base (parse_pragma "io" cs)])
    ∧ (∀ (tp : List Elem) (packs rejects : List PvPackage),
      from_element_path tp none none none = .ok (packs, rejects) →
      packs.all (fun p =>
        decide (p.proto_name = none) && decide (p.proto_file_name = none)) = true) := by
  constructor
  · intro leaf cs base pv hcfg hpv hio
    have hfep : from_element_path [leaf] (some base) none none
        = (fepGo [leaf] (some base) none true leaf.configs none []).map
            (fun l => (l, [])) := rfl
    rw [hfep, hcfg]
    rcases hio2 : parse_pragma "io" cs with _ | tg
    · have hpa : protoAssign (some base) none = some (some base) := rfl
      simp [fepGo, fepAssigned, hpa, mk_eval [leaf] cs pv (some base) none hpv,
        hio2, protoExpected, mkLegacyPkg, Except.map]
    · cases tg with
      | str s =>
        rw [hio2] at hio
        simp only [ioGuard] at hio
        by_cases ho : strHas s 'o' = true
        · have hpa : protoAssign (some base) (some (.str s))
              = some (some ("Set" ++ base)) := by
            simp [protoAssign, ho, pyAdd]
          simp [fepGo, fepAssigned, hpa,
            mk_eval [leaf] cs pv (some ("Set" ++ base)) none hpv,
            hio2, protoExpected, mkLegacyPkg, Except.map, ho]
        · have ho2 : strHas s 'o' = false := by
            rcases Bool.eq_false_or_eq_true (strHas s 'o') with h0 | h0
            · exact absurd h0 ho
            · exact h0
          have hi : strHas s 'i' = true := by
            rw [ho2] at hio
            simpa using hio
          have hpa : protoAssign (some base) (some (.str s))
              = some (some ("Get" ++ base)) := by
            simp [protoAssign, ho2, hi, pyAdd]
          simp [fepGo, fepAssigned, hpa,
            mk_eval [leaf] cs pv (some ("Get" ++ base)) none hpv,
            hio2, protoExpected, mkLegacyPkg, Except.map, ho2, hi]
      | tmap es =>
        rw [hio2] at hio
        simp [ioGuard] at hio
  · intro tp packs rejects h
    unfold from_element_path at h
    split at h
    · exact absurd h (by simp)
    · rename_i lastE hlast
      have hres : resolveUseProto none none none = false := rfl
      rw [hres] at h
      cases hgo : fepGo tp none none false lastE.configs none [] with
      | error e => rw [hgo] at h; exact absurd h (by simp [Except.map])
      | ok l =>
        rw [hgo] at h
        simp only [Except.map, Except.ok.injEq, Prod.mk.injEq] at h
        obtain ⟨hl, _⟩ := h
        rw [← hl]
        exact fepGo_noproto tp lastE.configs none [] l rfl hgo

/-- Leaf element for the C7 witness: one group with an input `io` record. -/
def leafC7 : Elem := { name := "L7", pv := "", configs := [[pvRow "v", ioRow "i"]] }

/-- Packages produced from the C7 witness leaf with stub usage off. -/
def packsC7 : List PvPackage :=
  match from_element_path [leafC7] none none none with
  | .ok r => r.1
  | .error _ => []

/-- Witness for the amended claim C7: a concrete `"Get"` derivation and the
no-stub case. -/
theorem stub_direction_amended_witness :
    leafC7.configs = [[pvRow "v", ioRow "i"]]
    ∧ findPvTag [pvRow "v", ioRow "i"] none = .ok (some (.str "v"))
    ∧ ioGuard (parse_pragma "io" [pvRow "v", ioRow "i"]) = true
    ∧ (from_element_path [leafC7] (some "Foo") none none).map
        (fun r => r.1.map PvPackage.proto_name)
      = .ok [protoExpected "Foo" (parse_pragma "io" [pvRow "v", ioRow "i"])]
    ∧ from_element_path [leafC7] none none none = .ok (packsC7, [])
    ∧ packsC7.all (fun p =>
        decide (p.proto_name = none) && decide (p.proto_file_name = none)) = true :=
  ⟨rfl, rfl, rfl,
   stub_direction_amended.1 leafC7 [pvRow "v", ioRow "i"] "Foo" "v" rfl rfl rfl,
   rfl, stub_direction_amended.2 [leafC7] packsC7 [] rfl⟩

/-- The deep copy only appends cells; addresses valid in the original heap
keep their contents. -/
theorem deepcopy_extends (addrs : List Nat) : ∀ (h : Heap) (a : Nat), a < h.length →
    (deepcopyRows h addrs).1[a]? = h[a]? := by
  induction addrs with
  | nil => intro h a ha; rfl
  | cons x rest ih =>
    intro h a ha
    show (deepcopyRows (h ++ [(h[x]?).getD []]) rest).1[a]? = h[a]?
    rw [ih (h ++ [(h[x]?).getD []]) a (by rw [List.length_append]; omega)]
    exact List.getElem?_append_left ha

/-- Fresh addresses returned by the deep copy all lie beyond the original
heap. -/
theorem deepcopy_fresh (addrs : List Nat) : ∀ (h : Heap) (b : Nat),
    b ∈ (deepcopyRows h addrs).2 → h.length ≤ b := by
  induction addrs with
  | nil => intro h b hb; simp [deepcopyRows] at hb
  | cons x rest ih =>
    intro h b hb
    have hb2 : b = h.length ∨ b ∈ (deepcopyRows (h ++ [(h[x]?).getD []]) rest).2 := by
      simpa [deepcopyRows] using hb
    rcases hb2 with rfl | hb2
    · exact Nat.le_refl _
    · have hle := ih (h ++ [(h[x]?).getD []]) b hb2
      rw [List.length_append] at hle
      omega

/-- The copied cells hold exactly the records of the original addresses. -/
theorem deepcopy_content (addrs : List Nat) : ∀ (h : Heap),
    (∀ x ∈ addrs, x < h.length) →
    (deepcopyRows h addrs).2.map (fun a => ((deepcopyRows h addrs).1[a]?).getD [])
      = addrs.map (fun x => (h[x]?).getD []) := by
  induction addrs with
  | nil => intro h _; rfl
  | cons x rest ih =>
    intro h hv
    show (h.length :: (deepcopyRows (h ++ [(h[x]?).getD []]) rest).2).map
        (fun a => ((deepcopyRows (h ++ [(h[x]?).getD []]) rest).1[a]?).getD [])
      = (h[x]?).getD [] :: rest.map (fun y => (h[y]?).getD [])
    rw [List.map_cons]
    congr 1
    · rw [deepcopy_extends rest (h ++ [(h[x]?).getD []]) h.length (by simp)]
      rw [List.getElem?_append_right (Nat.le_refl _)]
      simp
    · rw [ih (h ++ [(h[x]?).getD []]) (by
        intro y hy
        rw [List.length_append]
        have := hv y (List.mem_cons_of_mem x hy)
        omega)]
      apply List.map_congr_left
      intro y hy
      have hyl : y < h.length := hv y (List.mem_cons_of_mem x hy)
      rw [List.getElem?_append_left hyl]

/-- Claim C8 (confirmed): construction stores a deep, independent copy of the
pragma group.  If every address of the supplied group is valid, then the
package holds a copy of the group at fresh addresses: writing any record
through any of the package addresses leaves every cell of the supplied group
unchanged; the supplied addresses are disjoint from the package addresses;
and the copied contents equal the originals. -/
theorem deepcopy_frame (h : Heap) (tp : List Elem) (addrs : List Nat)
    (pn pf : Option String) (h2 : Heap) (pk : PvPackageH) (a b : Nat) (r : Row)
    (hmk : mkPvPackageH h tp addrs pn pf = (h2, .ok pk))
    (hval : ∀ x ∈ addrs, x < h.length)
    (ha : a ∈ addrs) (hb : b ∈ pk.pragmaAddrs) :
    (writeH h2 b r)[a]? = h[a]? ∧ a ∉ pk.pragmaAddrs
    ∧ pk.pkg.pragma = addrs.map (fun x => (h[x]?).getD []) := by
  unfold mkPvPackageH at hmk
  split at hmk
  · exact absurd (congrArg Prod.snd hmk) (by simp)
  · rename_i pkv hm
    injection hmk with hh2 hp
    injection hp with hp
    subst hh2
    subst hp
    have hal : a < h.length := hval a ha
    have hbf : h.length ≤ b := deepcopy_fresh addrs h b hb
    refine ⟨?_, ?_, ?_⟩
    · rw [writeH, List.getElem?_set_ne (by omega)]
      exact deepcopy_extends addrs h a hal
    · intro hc
      have := deepcopy_fresh addrs h a hc
      omega
    · have hf := mk_fields tp _ pn pf pkv hm
      rw [hf.2.1]
      exact deepcopy_content addrs h hval

/-- A one-cell heap for the C8 witness. -/
def heapW : Heap := [pvRow "a"]

/-- The heap after the witness construction. -/
def heapW2 : Heap := (mkPvPackageH heapW [] [0] none none).1

/-- The package (with addresses) of the witness construction. -/
def pkW8 : PvPackageH :=
  match (mkPvPackageH heapW [] [0] none none).2 with
  | .ok pk => pk
  | .error _ => { pkg := defaultPkg, pragmaAddrs := [] }

/-- Witness for claim C8 at a concrete heap: mutating the copied cell leaves
the original cell unchanged. -/
theorem deepcopy_frame_witness :
    (writeH heapW2 1 [])[0]? = heapW[0]? ∧ (0 : Nat) ∉ pkW8.pragmaAddrs
    ∧ pkW8.pkg.pragma = [0].map (fun x => (heapW[x]?).getD []) :=
  deepcopy_frame heapW [] [0] none none heapW2 pkW8 0 1 [] rfl
    (by decide) (by decide) (by decide)

/-- Claim C9 (confirmed): the defined equality holds exactly when every
attribute other than the version-scoped rule-table and guess-method lookup
attributes (`_all_req_fields`, `req_fields`, `_all_guess_methods`,
`guess_methods`, plus the never-materialized `req_vars` pair) agrees — note
that `_all_use_proto` and `use_proto` ARE compared; and two packages
constructed from identical inputs are equal under it. -/
theorem package_equality_spec :
    (∀ p q : PvPackage, pvEq p q = true ↔
      (p.target_path = q.target_path ∧ p.pragma = q.pragma ∧ p.pv_part = q.pv_part
       ∧ p.pfx = q.pfx ∧ p.pv_complete = q.pv_complete ∧ p.proto_name = q.proto_name
       ∧ p.proto_file_name = q.proto_file_name ∧ p.guessing_applied = q.guessing_applied
       ∧ p.version = q.version ∧ p.all_use_proto = q.all_use_proto
       ∧ p.use_proto = q.use_proto))
    ∧ (∀ (tp : List Elem) (pragma : List Row) (pn pf : Option String) (v : String)
        (pkg pkg2 : PvPackage),
      mkPvPackage tp pragma pn pf v = .ok pkg →
      mkPvPackage tp pragma pn pf v = .ok pkg2 → pvEq pkg pkg2 = true) := by
  constructor
  · intro p q
    simp [pvEq, and_assoc]
  · intro tp pragma pn pf v pkg pkg2 h1 h2
    rw [h1] at h2
    injection h2 with h2
    subst h2
    simp [pvEq]

/-- Package for the C9 witness. -/
def pkgC9 : PvPackage := getOkD defaultPkg (mkPvPackage [] [pvRow "w"] none none "legacy")

/-- Witness for claim C9: a concrete construction compared with itself. -/
theorem package_equality_spec_witness :
    mkPvPackage [] [pvRow "w"] none none "legacy" = .ok pkgC9
    ∧ pvEq pkgC9 pkgC9 = true :=
  ⟨rfl, package_equality_spec.2 [] [pvRow "w"] none none "legacy" pkgC9 pkgC9 rfl rfl⟩

/-- Lookup after a dict set at the same key yields the new value. -/
theorem dictGet_dictSet : ∀ (c : List (String × Elem)) (k : String) (v : Elem),
    dictGet (dictSet c k v) k = some v := by
  intro c
  induction c with
  | nil => intro k v; simp [dictSet, dictGet]
  | cons kv rest ih =>
    intro k v
    rcases kv with ⟨k1, v1⟩
    by_cases hk : k1 = k
    · simp [dictSet, dictGet, hk]
    · simp [dictSet, dictGet, hk]
      exact ih k v

/-- Setting an existing key replaces in place and keeps the size. -/
theorem dictSet_length : ∀ (c : List (String × Elem)) (k : String) (v : Elem),
    (dictGet c k).isSome = true → (dictSet c k v).length = c.length := by
  intro c
  induction c with
  | nil => intro k v h; simp [dictGet] at h
  | cons kv rest ih =>
    intro k v h
    rcases kv with ⟨k1, v1⟩
    by_cases hk : k1 = k
    · simp [dictSet, hk]
    · simp [dictSet, hk]
      refine ih k v ?_
      simpa [dictGet, hk] using h

/-- Setting the same key to the same value twice equals setting it once. -/
theorem dictSet_idem : ∀ (c : List (String × Elem)) (k : String) (v : Elem),
    dictSet (dictSet c k v) k v = dictSet c k v := by
  intro c
  induction c with
  | nil => intro k v; simp [dictSet]
  | cons kv rest ih =>
    intro k v
    rcases kv with ⟨k1, v1⟩
    by_cases hk : k1 = k
    · simp [dictSet, hk]
    · simp [dictSet, hk]
      exact ih k v

/-- Keys after a dict set come from the new key or the old keys. -/
theorem dictSet_keys_sub : ∀ (c : List (String × Elem)) (k : String) (v : Elem)
    (x : String), x ∈ (dictSet c k v).map Prod.fst → x = k ∨ x ∈ c.map Prod.fst := by
  intro c
  induction c with
  | nil =>
    intro k v x hx
    simp [dictSet] at hx
    exact Or.inl hx
  | cons kv rest ih =>
    intro k v x hx
    rcases kv with ⟨k1, v1⟩
    by_cases hk : k1 = k
    · simp [dictSet, hk] at hx
      rcases hx with hx | hx
      · exact Or.inl hx
      · exact Or.inr (by simp [hx])
    · simp [dictSet, hk] at hx
      rcases hx with hx | hx
      · exact Or.inr (by simp [hx])
      · rcases ih k v x (by simpa using hx) with hx2 | hx2
        · exact Or.inl hx2
        · exact Or.inr (by simp; right; simpa using hx2)

/-- A dict set preserves key uniqueness. -/
theorem dictSet_nodup : ∀ (c : List (String × Elem)) (k : String) (v : Elem),
    (c.map Prod.fst).Nodup → ((dictSet c k v).map Prod.fst).Nodup := by
  intro c
  induction c with
  | nil => intro k v _; simp [dictSet]
  | cons kv rest ih =>
    intro k v hnd
    rcases kv with ⟨k1, v1⟩
    rw [List.map_cons, List.nodup_cons] at hnd
    by_cases hk : k1 = k
    · simp only [dictSet, if_pos hk, List.map_cons, List.nodup_cons]
      refine ⟨?_, hnd.2⟩
      rw [← hk]
      exact hnd.1
    · simp only [dictSet, if_neg hk, List.map_cons, List.nodup_cons]
      refine ⟨?_, ih k v hnd.2⟩
      intro hc
      rcases dictSet_keys_sub rest k v k1 hc with h1 | h1
      · exact hk h1
      · exact hnd.1 h1

/-- Claim C10 (confirmed): after `add(v)` the collection maps `v.name` to
`v`; adding an element whose name is already present replaces the entry and
leaves the size unchanged; `add` is idempotent for a fixed element; and `add`
preserves the at-most-one-entry-per-name invariant. -/
theorem collector_add_spec :
    (∀ (c : List (String × Elem)) (v : Elem),
      dictGet (collectorAdd c v) v.name = some v)
    ∧ (∀ (c : List (String × Elem)) (v : Elem),
      (dictGet c v.name).isSome = true → (collectorAdd c v).length = c.length)
    ∧ (∀ (c : List (String × Elem)) (v : Elem),
      collectorAdd (collectorAdd c v) v = collectorAdd c v)
    ∧ (∀ (c : List (String × Elem)) (v : Elem),
      (c.map Prod.fst).Nodup → ((collectorAdd c v).map Prod.fst).Nodup) :=
  ⟨fun c v => dictGet_dictSet c v.name v,
   fun c v h => dictSet_length c v.name v h,
   fun c v => dictSet_idem c v.name v,
   fun c v h => dictSet_nodup c v.name v h⟩

/-- A second element carrying the already-present name `"A"`. -/
def elemA2 : Elem := { name := "A", pv := "zz", configs := [] }

/-- Witness for claim C10 on a concrete one-entry collection. -/
theorem collector_add_spec_witness :
    (dictGet [("A", elemA)] elemA2.name).isSome = true
    ∧ dictGet (collectorAdd [("A", elemA)] elemA2) elemA2.name = some elemA2
    ∧ (collectorAdd [("A", elemA)] elemA2).length = 1
    ∧ collectorAdd (collectorAdd [("A", elemA)] elemA2) elemA2
        = collectorAdd [("A", elemA)] elemA2
    ∧ ([("A", elemA)].map Prod.fst).Nodup
    ∧ ((collectorAdd [("A", elemA)] elemA2).map Prod.fst).Nodup :=
  ⟨rfl, collector_add_spec.1 [("A", elemA)] elemA2,
   collector_add_spec.2.1 [("A", elemA)] elemA2 rfl,
   collector_add_spec.2.2.1 [("A", elemA)] elemA2,
   by simp,
   collector_add_spec.2.2.2 [("A", elemA)] elemA2 (by simp)⟩

end Pytmc
